import Mathlib

/-!
Verification of the Copilot-Spaces bridge (src/src/copilot_client.py,
src/src/api_bridge.py, src/src/mcp_server.py) against its specification.

Python strings are modelled as lists of characters (`Str`); decoded JSON
values as the inductive `Json`; Python dicts as association lists without
duplicate keys; raised exceptions as `Except.error`.  Each Python function
relevant to a claim is translated into an executable Lean definition that
follows the source line by line.
-/

/-- Python strings, modelled as lists of characters. -/
abbrev Str := List Char

/-- Whitespace recognised by Python's str.strip (the common ASCII cases). -/
def isWs (c : Char) : Bool :=
  c = ' ' || c = '\t' || c = '\n' || c = '\r'

/-- Drop leading whitespace characters. -/
def dropLeadingWs : Str → Str
  | [] => []
  | c :: rest => if isWs c then dropLeadingWs rest else c :: rest

/-- Model of Python str.strip: drop leading and trailing whitespace. -/
def trimChars (s : Str) : Str :=
  (dropLeadingWs (dropLeadingWs s).reverse).reverse

/-- The suffix of the haystack after the first occurrence of `sep`,
when `sep` occurs; `none` otherwise. -/
def findSuffixAfter (sep : Str) : Str → Option Str
  | [] => if sep.isEmpty then some [] else none
  | c :: rest =>
    if sep.isPrefixOf (c :: rest) then some ((c :: rest).drop sep.length)
    else findSuffixAfter sep rest

/-- Model of Python's substring test `sep in s`. -/
def containsSub (sep s : Str) : Bool :=
  (findSuffixAfter sep s).isSome

/-- Model of Python's `s.split(sep, 1)[-1]`: the suffix after the first
occurrence of `sep`, or the whole string when `sep` does not occur. -/
def afterFirst (sep s : Str) : Str :=
  (findSuffixAfter sep s).getD s

/-- The characters of the haystack before the first occurrence of `sep`
(the whole string when `sep` does not occur). -/
def beforeFirst (sep : Str) : Str → Str
  | [] => []
  | c :: rest =>
    if sep.isPrefixOf (c :: rest) then []
    else c :: beforeFirst sep rest

/-- Model of Python's `sep.join(parts)`. -/
def joinStr (sep : Str) : List Str → Str
  | [] => []
  | [x] => x
  | x :: y :: rest => x ++ sep ++ joinStr sep (y :: rest)

/-- Decoded JSON values (the result type of Python's json.loads). -/
inductive Json where
  | null : Json
  | bool (b : Bool) : Json
  | num (n : Int) : Json
  | str (s : Str) : Json
  | arr (xs : List Json) : Json
  | obj (kvs : List (Str × Json)) : Json

/-- Association-list lookup: model of `d[k]` / `d.get(k)` on a Python dict. -/
def alookup {α : Type} : List (Str × α) → Str → Option α
  | [], _ => none
  | (k2, v) :: rest, k => if k2 = k then some v else alookup rest k

/-- Model of Python dict assignment `d[k] = v`: overwrite in place when the
key exists, else append the new pair at the end. -/
def dictSet {α : Type} (kvs : List (Str × α)) (k : Str) (v : α) : List (Str × α) :=
  if (alookup kvs k).isSome then
    kvs.map (fun p => if p.1 = k then (k, v) else p)
  else kvs ++ [(k, v)]

/-- Python truthiness of a decoded JSON value. -/
def pyTruthy : Json → Bool
  | Json.null => false
  | Json.bool b => b
  | Json.num n => !(n == 0)
  | Json.str s => !s.isEmpty
  | Json.arr xs => !xs.isEmpty
  | Json.obj kvs => !kvs.isEmpty

/-- Model of Python `len(v)` on a decoded JSON value: defined on sequences,
strings and dicts, a TypeError on the other values. -/
def pyLen : Json → Except Str Nat
  | Json.arr xs => Except.ok xs.length
  | Json.str s => Except.ok s.length
  | Json.obj kvs => Except.ok kvs.length
  | _ => Except.error "TypeError".data

/-- Model of Python `v[0]` on a decoded JSON value: first element of a list,
first character of a string (as a one-character string), a KeyError on a
dict whose keys are strings, a TypeError otherwise. -/
def pyIndex0 : Json → Except Str Json
  | Json.arr [] => Except.error "IndexError".data
  | Json.arr (x :: _) => Except.ok x
  | Json.str [] => Except.error "IndexError".data
  | Json.str (c :: _) => Except.ok (Json.str [c])
  | Json.obj _ => Except.error "KeyError".data
  | _ => Except.error "TypeError".data

/-- Model of Python `v.get(k, dflt)`: dict lookup with a default, an
AttributeError when the receiver is not a dict. -/
def pyGet (v : Json) (k : Str) (dflt : Json) : Except Str Json :=
  match v with
  | Json.obj kvs => Except.ok ((alookup kvs k).getD dflt)
  | _ => Except.error "AttributeError".data

/-- Double-quote character. -/
def dqChar : Char := Char.ofNat 34

/-- Single-quote character. -/
def sqChar : Char := Char.ofNat 39

/-- Left curly bracket character. -/
def lbChar : Char := Char.ofNat 123

/-- Right curly bracket character. -/
def rbChar : Char := Char.ofNat 125

mutual

/-- Model of Python `json.dumps` on a decoded value (default separators;
string escaping is not modelled, no claim depends on it). -/
def json_dumps : Json → Str
  | Json.null => "null".data
  | Json.bool true => "true".data
  | Json.bool false => "false".data
  | Json.num n => (toString n).data
  | Json.str s => dqChar :: s ++ [dqChar]
  | Json.arr xs => '[' :: joinStr ", ".data (json_dumps_list xs) ++ [']']
  | Json.obj kvs => lbChar :: joinStr ", ".data (json_dumps_obj kvs) ++ [rbChar]

/-- json.dumps of every element of a JSON array. -/
def json_dumps_list : List Json → List Str
  | [] => []
  | x :: xs => json_dumps x :: json_dumps_list xs

/-- json.dumps of every key/value pair of a JSON object. -/
def json_dumps_obj : List (Str × Json) → List Str
  | [] => []
  | (k, v) :: xs =>
    (dqChar :: k ++ [dqChar] ++ ": ".data ++ json_dumps v) :: json_dumps_obj xs

end

mutual

/-- Model of Python `repr` on a decoded JSON value (escaping inside string
literals is not modelled, no claim depends on it). -/
def pyRepr : Json → Str
  | Json.null => "None".data
  | Json.bool true => "True".data
  | Json.bool false => "False".data
  | Json.num n => (toString n).data
  | Json.str s => sqChar :: s ++ [sqChar]
  | Json.arr xs => '[' :: joinStr ", ".data (pyReprList xs) ++ [']']
  | Json.obj kvs => lbChar :: joinStr ", ".data (pyReprObj kvs) ++ [rbChar]

/-- repr of every element of a JSON array. -/
def pyReprList : List Json → List Str
  | [] => []
  | x :: xs => pyRepr x :: pyReprList xs

/-- repr of every key/value pair of a JSON object. -/
def pyReprObj : List (Str × Json) → List Str
  | [] => []
  | (k, v) :: xs =>
    (sqChar :: k ++ [sqChar] ++ ": ".data ++ pyRepr v) :: pyReprObj xs

end

/-- Model of Python `str(v)` as used by f-string interpolation: a string is
itself, any other value is its repr. -/
def pyStr : Json → Str
  | Json.str s => s
  | v => pyRepr v

/-- The last `n` elements of a list: model of Python's slice `xs[-n:]`. -/
def lastN {α : Type} (n : Nat) (xs : List α) : List α :=
  xs.drop (xs.length - n)

/-! ## MCP tool results (src/src/copilot_client.py) -/

/-- An embedded resource of an MCP content item: a URI plus an optional
text body (`none` models an absent or None text attribute). -/
structure McpResource where
  uri : Str
  text : Option Str

/-- An MCP tool-result content item as probed by the client code with
getattr: an optional `type` string, an optional `resource` attribute whose
value may itself be None (`none` = attribute absent, `some none` =
attribute present but None), and an optional own `text` attribute. -/
structure McpItem where
  ctype : Option Str
  resource : Option (Option McpResource)
  text : Option Str

/-- Model of `getattr(item, "resource", None)` followed by a None test:
the resource object when the attribute is present and not None. -/
def McpItem.res (it : McpItem) : Option McpResource :=
  match it.resource with
  | some (some r) => some r
  | _ => none

/-- A tool-call result: an optional list of content items (`none` models a
None `content` attribute). -/
structure CallResult where
  content : Option (List McpItem)

/-- A decoded tool-result payload: a JSON value when json.loads succeeded,
else the raw string. -/
inductive ParsedVal where
  | json (v : Json)
  | raw (s : Str)

/-- The JSON-then-raw-string fallback shared by both branches of
_parse_mcp_result: `jparse` models json.loads, `none` standing for a
JSONDecodeError. -/
def decodeText (jparse : Str → Option Json) (t : Str) : ParsedVal :=
  match jparse t with
  | some v => ParsedVal.json v
  | none => ParsedVal.raw t

/-- Translation of `_parse_mcp_result` (src/src/copilot_client.py lines
47-86).  `none` as a result models returning Python None. -/
def parse_mcp_result (jparse : Str → Option Json) (result : Option CallResult) :
    Option ParsedVal :=
  match result with
  | none => none
  | some res =>
    match res.content with
    | none => none
    | some [] => none
    | some (item :: _) =>
      if (item.ctype == some "resource".data) || item.resource.isSome then
        match item.res with
        | none => none
        | some r =>
          match r.text with
          | none => none
          | some t => some (decodeText jparse t)
      else
        match item.text with
        | none => none
        | some t => some (decodeText jparse t)

/-- The Tool-Result Parser as the claim words it: text is taken from the
nested resource object when that object is present, else from the item
itself; absent text gives absent; JSON parse with raw-string fallback. -/
def claimParse (jparse : Str → Option Json) (result : Option CallResult) :
    Option ParsedVal :=
  match result with
  | none => none
  | some res =>
    match res.content with
    | none => none
    | some [] => none
    | some (item :: _) =>
      match item.res with
      | some r => (r.text).map (decodeText jparse)
      | none => (item.text).map (decodeText jparse)

/-- The Tool-Result Parser as amended: the resource branch is selected when
the item's type equals "resource" or the item carries a resource attribute;
in that branch an absent resource object or absent resource text gives
absent; otherwise the item's own text is used. -/
def amendedParse (jparse : Str → Option Json) (result : Option CallResult) :
    Option ParsedVal :=
  match result with
  | none => none
  | some res =>
    match res.content with
    | none => none
    | some [] => none
    | some (item :: _) =>
      if (item.ctype == some "resource".data) || item.resource.isSome then
        ((item.res).bind McpResource.text).map (decodeText jparse)
      else (item.text).map (decodeText jparse)

/-! ## Space Fetcher resource walk (src/src/copilot_client.py lines 140-221) -/

/-- A retained knowledge file of a Space: its path and its content. -/
structure FileEntry where
  path : Str
  content : Str
deriving DecidableEq

/-- One iteration of the resource-item loop of `get_copilot_space` (lines
180-192): the state is the pair (space_name, files). -/
def spaceWalkStep (name : Str) (st : Str × List FileEntry) (item : McpItem) :
    Str × List FileEntry :=
  match item.res with
  | none => st
  | some r =>
    let text := r.text.getD []
    if containsSub "/contents/name".data r.uri then
      (if (trimChars text).isEmpty then name else trimChars text, st.2)
    else if containsSub "/files/".data r.uri then
      (st.1,
        if (trimChars text).isEmpty then st.2
        else st.2 ++ [⟨afterFirst "/files/".data r.uri, text⟩])
    else st

/-- The full resource-item loop of `get_copilot_space`: starting from the
input name and no files. -/
def spaceWalk (name : Str) (items : List McpItem) : Str × List FileEntry :=
  items.foldl (spaceWalkStep name) (name, [])

/-- Translation of the context builder (lines 195-200): a header line per
file followed by its content, joined with the fixed separator. -/
def buildContext (files : List FileEntry) : Str :=
  joinStr "\n\n---\n\n".data
    (files.map (fun f => "### File: ".data ++ f.path ++ "\n\n".data ++ f.content))

/-- Translation of the space_ref split (lines 153-157): owner is the part
before the first slash, name the rest; no slash means empty owner. -/
def splitRef (ref : Str) : Str × Str :=
  if containsSub "/".data ref then
    (beforeFirst "/".data ref, afterFirst "/".data ref)
  else ([], ref)

/-- The Space record assembled by `get_copilot_space` (lines 202-208). -/
structure SpaceRec where
  name : Str
  owner : Str
  space_ref : Str
  files : List FileEntry
  context : Str
deriving DecidableEq

/-- Translation of the pure part of `get_copilot_space` (lines 153-208)
given the content items returned by the tool call. -/
def get_copilot_space_pure (space_ref : Str) (items : List McpItem) : SpaceRec :=
  let p := splitRef space_ref
  let w := spaceWalk p.2 items
  { name := w.1, owner := p.1, space_ref := space_ref,
    files := w.2, context := buildContext w.2 }

/-! ## Cleanup-exception tolerance (src/src/copilot_client.py lines 125-137
and 214-221).  The session body either completes (no exception) or raises;
`cleanupError` carries the exception, and the first argument is the value
the local result variable holds at that moment. -/

/-- Translation of the except/return logic of `list_copilot_spaces`:
spaces_result starts as the empty list (falsy); on an exception the
populated list wins, an empty list re-raises. -/
def list_copilot_spaces_finish (spaces_result : List Json)
    (cleanupError : Option Str) : Except Str (List Json) :=
  match cleanupError with
  | none => Except.ok spaces_result
  | some e =>
    if spaces_result.isEmpty then Except.error e
    else Except.ok spaces_result

/-- Translation of the except/return logic of `get_copilot_space`:
space_result starts as the empty dict (falsy, modelled `none`); on an
exception an assembled record wins, an empty dict re-raises. -/
def get_copilot_space_finish (space_result : Option SpaceRec)
    (cleanupError : Option Str) : Except Str (Option SpaceRec) :=
  match cleanupError with
  | none => Except.ok space_result
  | some e =>
    match space_result with
    | none => Except.error e
    | some r => Except.ok (some r)

/-! ## Space Lister normalisation (src/src/copilot_client.py lines 115-123) -/

/-- Translation of `if isinstance(owner, dict): owner = owner.get("login", "")`:
a dict is replaced by its login field (default empty string), any other
value is kept. -/
def loginExtract (v : Json) : Json :=
  match v with
  | Json.obj m => (alookup m "login".data).getD (Json.str [])
  | o2 => o2

/-- Translation of the owner derivation: `space.get("owner_login") or
space.get("owner", "")`, then `.get("login", "")` when the result is a
dict. -/
def derivedOwner (kvs : List (Str × Json)) : Json :=
  let o1 := (alookup kvs "owner_login".data).getD Json.null
  loginExtract
    (if pyTruthy o1 then o1 else (alookup kvs "owner".data).getD (Json.str []))

/-- Translation of the space_ref value: the f-string `"owner/name"` when the
derived owner is truthy, else the raw name value. -/
def spaceRefValue (kvs : List (Str × Json)) : Json :=
  let owner := derivedOwner kvs
  let name := (alookup kvs "name".data).getD (Json.str [])
  if pyTruthy owner then Json.str (pyStr owner ++ "/".data ++ pyStr name)
  else name

/-- Translation of one iteration of the normalisation loop: a keyed record
gets a `space_ref` field, any other value is left unchanged. -/
def normalizeSpace (s : Json) : Json :=
  match s with
  | Json.obj kvs => Json.obj (dictSet kvs "space_ref".data (spaceRefValue kvs))
  | other => other

/-- Translation of the whole normalisation loop over the decoded list. -/
def normalizeSpaces (spaces : List Json) : List Json :=
  spaces.map normalizeSpace

/-- The owner derivation as the claim words it: prefer `owner_login`, else
`owner`, else the empty string; a nested object contributes its `login`
field. -/
def specOwnerOf (kvs : List (Str × Json)) : Json :=
  loginExtract
    (match alookup kvs "owner_login".data with
     | some v => if pyTruthy v then v else (alookup kvs "owner".data).getD (Json.str [])
     | none => (alookup kvs "owner".data).getD (Json.str []))

/-! ## Response Extractor (src/src/api_bridge.py lines 168-179 and
src/src/mcp_server.py lines 119-130; the two copies are identical, a single
translation covers both). -/

/-- The elif/else part of `_extract_response`: the `message` fallback and
the serialise-everything fallback. -/
def extractElse (resp : List (Str × Json)) : Except Str Json :=
  match alookup resp "message".data with
  | some m => pyGet m "content".data (Json.str (json_dumps (Json.obj resp)))
  | none => Except.ok (Json.str (json_dumps (Json.obj resp)))

/-- Translation of `_extract_response`.  The argument is the decoded JSON
response object (its key/value pairs); `Except.error` models a raised
exception, `Except.ok` the returned Python value, which need not be a
string. -/
def extract_response (resp : List (Str × Json)) : Except Str Json :=
  match alookup resp "choices".data with
  | some c =>
    match pyLen c with
    | Except.error e => Except.error e
    | Except.ok n =>
      if 0 < n then
        match pyIndex0 c with
        | Except.error e => Except.error e
        | Except.ok first =>
          match pyGet first "message".data (Json.obj []) with
          | Except.error e => Except.error e
          | Except.ok msg => pyGet msg "content".data (Json.str [])
      else extractElse resp
  | none => extractElse resp

/-- Whether an extractor outcome is a normal return carrying a string. -/
def returnsString (r : Except Str Json) : Bool :=
  match r with
  | Except.ok (Json.str _) => true
  | _ => false

/-- Shape condition on a message object: its `content`, when present, is a
string. -/
def goodContent (mo : List (Str × Json)) : Bool :=
  match alookup mo "content".data with
  | none => true
  | some (Json.str _) => true
  | some _ => false

/-- Shape conditions on the `message`-fallback path: `message`, when
present, is an object whose `content`, when present, is a string. -/
def goodElse (resp : List (Str × Json)) : Bool :=
  match alookup resp "message".data with
  | none => true
  | some (Json.obj mo) => goodContent mo
  | some _ => false

/-- Shape condition on the first choice: an object whose `message`, when
present, is an object with good content. -/
def goodMsg (fo : List (Str × Json)) : Bool :=
  match alookup fo "message".data with
  | none => true
  | some (Json.obj mo) => goodContent mo
  | some _ => false

/-- Shape conditions under which the Response Extractor returns a string
without raising: `choices`, when present, is a sequence that is either
empty (or another empty sized value) or whose first element is an object
whose `message`, when present, is an object whose `content`, when present,
is a string; on the fallback path the `message` conditions of `goodElse`. -/
def goodResponse (resp : List (Str × Json)) : Bool :=
  match alookup resp "choices".data with
  | none => goodElse resp
  | some (Json.arr []) => goodElse resp
  | some (Json.arr (first :: _)) =>
    match first with
    | Json.obj fo => goodMsg fo
    | _ => false
  | some (Json.str []) => goodElse resp
  | some (Json.str (_ :: _)) => false
  | some (Json.obj []) => goodElse resp
  | some (Json.obj (_ :: _)) => false
  | some _ => false

/-- The content of a message object, defaulting to `dflt` when `content` is
absent (or not a string). -/
def contentSpec (mo : List (Str × Json)) (dflt : Str) : Str :=
  match alookup mo "content".data with
  | some (Json.str s) => s
  | _ => dflt

/-- The content at choices[0].message.content with empty-string defaults,
as the claim words it. -/
def msgSpec (fo : List (Str × Json)) : Str :=
  match alookup fo "message".data with
  | some (Json.obj mo) => contentSpec mo []
  | _ => []

/-- The fallback result as the claim words it: message.content when the
message object carries a string content, else the serialised response. -/
def extractSpecElse (resp : List (Str × Json)) : Str :=
  match alookup resp "message".data with
  | some (Json.obj mo) => contentSpec mo (json_dumps (Json.obj resp))
  | _ => json_dumps (Json.obj resp)

/-- The Response Extractor as the claim words it: the content at
choices[0].message.content with empty-string defaults; else message.content
defaulting to the serialised response; else the serialised response. -/
def extractSpec (resp : List (Str × Json)) : Str :=
  match alookup resp "choices".data with
  | some (Json.arr (first :: _)) =>
    (match first with
     | Json.obj fo => msgSpec fo
     | _ => [])
  | _ => extractSpecElse resp

/-! ## HTTP query handler conversation logic (src/src/api_bridge.py lines
108-153) -/

/-- A conversation turn: a role and a content string. -/
structure Turn where
  role : Str
  content : Str
deriving DecidableEq

/-- The conversation lookup of lines 114-117: the id must be truthy and
present in the store. -/
def knownLookup (store : List (Str × List Turn)) (cid : Option Str) :
    Option (Str × List Turn) :=
  match cid with
  | none => none
  | some s =>
    if s.isEmpty then none
    else (alookup store s).map (fun hist => (s, hist))

/-- Whether the requested conversation id is truthy and already stored. -/
def convKnownB (store : List (Str × List Turn)) (cid : Option Str) : Bool :=
  (knownLookup store cid).isSome

/-- The context string obtained from the guarded `get_copilot_space` call of
lines 120-124: the record's context on success, the empty string when the
fetch raised. -/
def fileContextFrom (fetch : Except Unit SpaceRec) : Str :=
  match fetch with
  | Except.ok r => r.context
  | Except.error _ => []

/-- Translation of the system-content construction of lines 126-135. -/
def system_content (owner name fileContext : Str) : Str :=
  "You are GitHub Copilot operating in the ".data
    ++ [sqChar] ++ name ++ [sqChar]
    ++ " space (owner: ".data ++ owner
    ++ "). Answer questions using ONLY the knowledge files below. If the answer is not in the files, say so honestly.\n\n".data
    ++ (if fileContext.isEmpty then
          "(No knowledge files are attached to this space yet.)".data
        else "## Space Knowledge Files\n\n".data ++ fileContext)

/-- The observable outcome of one run of the query handler up to the chat
call: the conversation id used, the stored history at the moment the chat
call is made (system turn, if newly created, plus appended user turn), the
message list passed to the chat call, and the updated store. -/
structure QueryStep where
  convId : Str
  historyAtChat : List Turn
  messages : List Turn
  storeAfter : List (Str × List Turn)
deriving DecidableEq

/-- Translation of the conversation part of `api_query_space` (lines
113-147): conversation lookup or creation, the guarded space fetch for a
new conversation, the user-turn append and the last-20 trim.  `fetchSpace`
models the outcome of `get_copilot_space` for the new-conversation path. -/
def api_query_space_core (store : List (Str × List Turn)) (counter : Nat)
    (owner name : Str) (reqConvId : Option Str)
    (fetchSpace : Except Unit SpaceRec) (prompt : Str) : QueryStep :=
  match knownLookup store reqConvId with
  | some (cid, hist) =>
    let newHist := hist ++ [⟨"user".data, prompt⟩]
    { convId := cid, historyAtChat := newHist,
      messages := lastN 20 newHist,
      storeAfter := dictSet store cid newHist }
  | none =>
    let cid := "conv-".data ++ (Nat.repr (counter + 1)).data
    let sys : Turn := ⟨"system".data,
      system_content owner name (fileContextFrom fetchSpace)⟩
    let newHist := [sys, ⟨"user".data, prompt⟩]
    { convId := cid, historyAtChat := newHist,
      messages := lastN 20 newHist,
      storeAfter := dictSet store cid newHist }

/-! ## MCP tool query_space message building (src/src/mcp_server.py lines
81-90) -/

/-- Model of `list(history[-20:])` on a decoded JSON value: the last 20
elements of a list, the last 20 characters of a string as one-character
strings, a TypeError on other values. -/
def pyLastSlice20 : Json → Except Str (List Json)
  | Json.arr xs => Except.ok (lastN 20 xs)
  | Json.str s => Except.ok ((lastN 20 s).map (fun c => Json.str [c]))
  | _ => Except.error "TypeError".data

/-- The user-turn object appended by the MCP tool (line 90). -/
def userMsgObj (prompt : Str) : Json :=
  Json.obj [("role".data, Json.str "user".data), ("content".data, Json.str prompt)]

/-- Translation of the message-building part of the MCP tool `query_space`
(lines 81-90): parse the conversation-history JSON, substituting the empty
list on a decode error, trim to the last 20 turns and append the user
turn. -/
def query_space_build (jparse : Str → Option Json)
    (conversation_history prompt : Str) : Except Str (List Json) :=
  let history : Json := (jparse conversation_history).getD (Json.arr [])
  match pyLastSlice20 history with
  | Except.ok xs => Except.ok (xs ++ [userMsgObj prompt])
  | Except.error e => Except.error e

/-! ## Spec-side descriptions for the Space Fetcher walk -/

/-- The File contributed by one content item, as amended: the item carries a
resource whose URI contains "/files/" and does not contain
"/contents/name", and its text has non-empty trim; the path is the URI
suffix after the first "/files/", the content the unmodified text. -/
def specFileOf (it : McpItem) : Option FileEntry :=
  match it.res with
  | some r =>
    if containsSub "/files/".data r.uri
        && !(containsSub "/contents/name".data r.uri)
        && !(trimChars (r.text.getD [])).isEmpty then
      some ⟨afterFirst "/files/".data r.uri, r.text.getD []⟩
    else none
  | none => none

/-- The files list as amended: in item order, the Files contributed by the
individual items. -/
def specFiles (items : List McpItem) : List FileEntry :=
  items.filterMap specFileOf

/-- The resource of an item when that item is a display-name item: it
carries a resource whose URI contains "/contents/name". -/
def nameItemOf (it : McpItem) : Option McpResource :=
  match it.res with
  | some r => if containsSub "/contents/name".data r.uri then some r else none
  | none => none

/-- The last resource-bearing item whose URI contains "/contents/name". -/
def lastNameItem : List McpItem → Option McpResource
  | [] => none
  | it :: rest => (lastNameItem rest).or (nameItemOf it)

/-- The display name that results when the walk starts with current name
`n0`: the last "/contents/name" item wins (its trimmed text when non-empty,
else the original input name), and without such an item `n0` stands. -/
def specNameFrom (name n0 : Str) (items : List McpItem) : Str :=
  match lastNameItem items with
  | none => n0
  | some r =>
    if (trimChars (r.text.getD [])).isEmpty then name
    else trimChars (r.text.getD [])

/-- The space display name as the claim words it: the trimmed text of the
(last) item whose URI contains "/contents/name" when that trimmed text is
non-empty, else the input name. -/
def specName (name : Str) (items : List McpItem) : Str :=
  specNameFrom name name items

/-- The context string as the claim words it: per file a header line naming
the path followed by the content, all files joined by the fixed separator,
the empty files list yielding the empty string. -/
def specContext : List FileEntry → Str
  | [] => []
  | [f] => "### File: ".data ++ f.path ++ "\n\n".data ++ f.content
  | f :: g :: rest =>
    "### File: ".data ++ f.path ++ "\n\n".data ++ f.content
      ++ "\n\n---\n\n".data ++ specContext (g :: rest)

/-- The files list exactly as the unamended claim words it: one entry per
item whose URI contains "/files/" and whose text has non-empty trim,
regardless of whether the URI also contains "/contents/name". -/
def claimFileOf (it : McpItem) : Option FileEntry :=
  match it.res with
  | some r =>
    if containsSub "/files/".data r.uri
        && !(trimChars (r.text.getD [])).isEmpty then
      some ⟨afterFirst "/files/".data r.uri, r.text.getD []⟩
    else none
  | none => none

/-- The unamended claim's files list. -/
def claimFiles (items : List McpItem) : List FileEntry :=
  items.filterMap claimFileOf

/-! ## Helper lemmas -/

/-- The length of the last-n slice is the minimum of the list length and n. -/
theorem lastN_length {α : Type} (n : Nat) (xs : List α) :
    (lastN n xs).length = min xs.length n := by
  unfold lastN
  rw [List.length_drop]
  omega

/-- An unknown conversation id yields no stored conversation. -/
theorem knownLookup_eq_none {store : List (Str × List Turn)} {cid : Option Str}
    (h : convKnownB store cid = false) : knownLookup store cid = none := by
  cases hkl : knownLookup store cid with
  | none => rfl
  | some p =>
    unfold convKnownB at h
    rw [hkl] at h
    exact Bool.noConfusion h

/-! ## Claims -/

/-- C1: for both listSpaces and getSpace, when an exception is raised during
session/transport teardown, a populated spaces list (resp. an assembled
space record) captured before the exception is returned and the exception
is not propagated; when no data was captured, the exception propagates. -/
theorem claim_C1 (captured : List Json) (r : SpaceRec) (e : Str)
    (h : captured ≠ []) :
    list_copilot_spaces_finish captured (some e) = Except.ok captured
    ∧ list_copilot_spaces_finish [] (some e) = Except.error e
    ∧ get_copilot_space_finish (some r) (some e) = Except.ok (some r)
    ∧ get_copilot_space_finish none (some e) = Except.error e := by
  refine ⟨?_, rfl, rfl, rfl⟩
  cases captured with
  | nil => exact absurd rfl h
  | cons a t => rfl

/-- Witness for C1 at a one-element captured list and a concrete record. -/
theorem claim_C1_witness :
    list_copilot_spaces_finish [Json.null] (some "err".data) = Except.ok [Json.null]
    ∧ list_copilot_spaces_finish [] (some "err".data) = Except.error "err".data
    ∧ get_copilot_space_finish (some ⟨[], [], [], [], []⟩) (some "err".data)
        = Except.ok (some ⟨[], [], [], [], []⟩)
    ∧ get_copilot_space_finish none (some "err".data) = Except.error "err".data :=
  claim_C1 [Json.null] ⟨[], [], [], [], []⟩ "err".data (List.cons_ne_nil _ _)

/-- C9: when the conversation_history argument of the MCP tool query_space
is not valid JSON, the history is treated as empty and the chat call
receives only the user turn, with no error. -/
theorem claim_C9 (jparse : Str → Option Json) (ch prompt : Str)
    (h : jparse ch = none) :
    query_space_build jparse ch prompt = Except.ok [userMsgObj prompt] := by
  unfold query_space_build
  rw [h]
  rfl

/-- Witness for C9 at a parser that rejects its input. -/
theorem claim_C9_witness :
    query_space_build (fun _ => none) "not json".data "hi".data
      = Except.ok [userMsgObj "hi".data] :=
  claim_C9 (fun _ => none) "not json".data "hi".data rfl

/-- C10: on an HTTP query creating a new conversation, a raising getSpace
call is swallowed: the handler still builds the conversation, and the
system turn carries the fixed placeholder text instead of file context. -/
theorem claim_C10 (store : List (Str × List Turn)) (counter : Nat)
    (owner name prompt : Str) (reqCid : Option Str)
    (h : convKnownB store reqCid = false) :
    (api_query_space_core store counter owner name reqCid (Except.error ()) prompt).historyAtChat
      = [⟨"system".data,
          "You are GitHub Copilot operating in the ".data
            ++ [sqChar] ++ name ++ [sqChar]
            ++ " space (owner: ".data ++ owner
            ++ "). Answer questions using ONLY the knowledge files below. If the answer is not in the files, say so honestly.\n\n".data
            ++ "(No knowledge files are attached to this space yet.)".data⟩,
         ⟨"user".data, prompt⟩] := by
  unfold api_query_space_core
  rw [knownLookup_eq_none h]
  rfl

/-- Witness for C10 at an empty store and absent conversation id. -/
theorem claim_C10_witness :
    (api_query_space_core [] 0 "ow".data "sp".data none (Except.error ()) "q".data).historyAtChat
      = [⟨"system".data,
          "You are GitHub Copilot operating in the ".data
            ++ [sqChar] ++ "sp".data ++ [sqChar]
            ++ " space (owner: ".data ++ "ow".data
            ++ "). Answer questions using ONLY the knowledge files below. If the answer is not in the files, say so honestly.\n\n".data
            ++ "(No knowledge files are attached to this space yet.)".data⟩,
         ⟨"user".data, "q".data⟩] :=
  claim_C10 [] 0 "ow".data "sp".data "q".data none rfl

/-- C8: an absent or unknown conversation id creates a conversation holding
exactly one system turn, placed first, before the user turn is appended;
and for every query the message list passed to the chat call is exactly
the last min(length, 20) turns of the stored history. -/
theorem claim_C8 (store : List (Str × List Turn)) (counter : Nat)
    (owner name prompt : Str) (reqCid : Option Str) (fetch : Except Unit SpaceRec) :
    (convKnownB store reqCid = false →
      (api_query_space_core store counter owner name reqCid fetch prompt).historyAtChat
        = [⟨"system".data, system_content owner name (fileContextFrom fetch)⟩,
           ⟨"user".data, prompt⟩])
    ∧ (api_query_space_core store counter owner name reqCid fetch prompt).messages
        = lastN 20 (api_query_space_core store counter owner name reqCid fetch prompt).historyAtChat
    ∧ ((api_query_space_core store counter owner name reqCid fetch prompt).messages).length
        = min ((api_query_space_core store counter owner name reqCid fetch prompt).historyAtChat).length 20 := by
  refine ⟨?_, ?_, ?_⟩
  · intro h
    unfold api_query_space_core
    rw [knownLookup_eq_none h]
  · cases hkl : knownLookup store reqCid with
    | none => simp only [api_query_space_core, hkl]
    | some p =>
      obtain ⟨cid, hist⟩ := p
      simp only [api_query_space_core, hkl]
  · cases hkl : knownLookup store reqCid with
    | none =>
      simp only [api_query_space_core, hkl]
      exact lastN_length 20 _
    | some p =>
      obtain ⟨cid, hist⟩ := p
      simp only [api_query_space_core, hkl]
      exact lastN_length 20 _

/-- Witness for C8 at an empty store, absent id and a successful fetch. -/
theorem claim_C8_witness :
    (api_query_space_core [] 0 "own".data "nm".data none
        (Except.ok ⟨[], [], [], [], "CTX".data⟩) "ask".data).historyAtChat
      = [⟨"system".data, system_content "own".data "nm".data
            (fileContextFrom (Except.ok ⟨[], [], [], [], "CTX".data⟩))⟩,
         ⟨"user".data, "ask".data⟩]
    ∧ (api_query_space_core [] 0 "own".data "nm".data none
        (Except.ok ⟨[], [], [], [], "CTX".data⟩) "ask".data).messages
      = lastN 20 (api_query_space_core [] 0 "own".data "nm".data none
          (Except.ok ⟨[], [], [], [], "CTX".data⟩) "ask".data).historyAtChat :=
  ⟨(claim_C8 [] 0 "own".data "nm".data "ask".data none
      (Except.ok ⟨[], [], [], [], "CTX".data⟩)).1 rfl,
   (claim_C8 [] 0 "own".data "nm".data "ask".data none
      (Except.ok ⟨[], [], [], [], "CTX".data⟩)).2.1⟩

/-- A verified prefix can be peeled off a list: the prefix followed by the
remainder after dropping its length is the list itself. -/
theorem isPrefixOf_append_drop : ∀ {sep l : Str}, sep.isPrefixOf l = true →
    sep ++ l.drop sep.length = l := by
  intro sep
  induction sep with
  | nil => intro l _; simp
  | cons a as ih =>
    intro l h
    cases l with
    | nil => simp [List.isPrefixOf] at h
    | cons b bs =>
      simp only [List.isPrefixOf, Bool.and_eq_true, beq_iff_eq] at h
      obtain ⟨h1, h2⟩ := h
      subst h1
      simpa using ih h2

/-- When `sep` occurs in `s`, the string splits as the part before the
first occurrence, the separator, and the suffix after it. -/
theorem findSuffix_split {sep : Str} : ∀ (s suf : Str),
    findSuffixAfter sep s = some suf → beforeFirst sep s ++ (sep ++ suf) = s := by
  intro s
  induction s with
  | nil =>
    intro suf h
    unfold findSuffixAfter at h
    by_cases hs : sep.isEmpty = true
    · rw [if_pos hs] at h
      injection h with h2
      subst h2
      rw [List.isEmpty_iff] at hs
      simp [beforeFirst, hs]
    · rw [if_neg hs] at h
      exact Option.noConfusion h
  | cons c rest ih =>
    intro suf h
    unfold findSuffixAfter at h
    by_cases hp : sep.isPrefixOf (c :: rest) = true
    · rw [if_pos hp] at h
      injection h with h2
      subst h2
      unfold beforeFirst
      rw [if_pos hp]
      simpa using isPrefixOf_append_drop hp
    · rw [if_neg hp] at h
      unfold beforeFirst
      rw [if_neg hp]
      simp only [List.cons_append]
      rw [ih suf h]

/-- C6 counterexample: a "/contents/name" item overrides the display name,
after which space_ref is no longer owner + "/" + name for the record's own
name field. -/
theorem claim_C6_counterexample :
    (get_copilot_space_pure "o/n".data
        [⟨none, some (some ⟨"space://o/1/contents/name".data, some "My Space".data⟩), none⟩]).space_ref
      ≠ (get_copilot_space_pure "o/n".data
          [⟨none, some (some ⟨"space://o/1/contents/name".data, some "My Space".data⟩), none⟩]).owner
        ++ "/".data
        ++ (get_copilot_space_pure "o/n".data
            [⟨none, some (some ⟨"space://o/1/contents/name".data, some "My Space".data⟩), none⟩]).name := by
  decide

/-- C6 as amended: space_ref always equals the input reference, which is
owner + "/" + n when the input contains a slash (n being the name component
split off the input, not the possibly overridden display name), and n alone
otherwise. -/
theorem claim_C6_amended (ref : Str) (items : List McpItem) :
    (get_copilot_space_pure ref items).space_ref
      = (if containsSub "/".data ref
         then (get_copilot_space_pure ref items).owner ++ "/".data ++ (splitRef ref).2
         else (splitRef ref).2) := by
  by_cases hc : containsSub "/".data ref = true
  · rw [if_pos hc]
    have hs : ∃ suf, findSuffixAfter "/".data ref = some suf := by
      unfold containsSub at hc
      exact Option.isSome_iff_exists.mp hc
    obtain ⟨suf, hsuf⟩ := hs
    show ref = (splitRef ref).1 ++ "/".data ++ (splitRef ref).2
    unfold splitRef
    rw [if_pos hc]
    show ref = beforeFirst "/".data ref ++ "/".data ++ afterFirst "/".data ref
    unfold afterFirst
    rw [hsuf]
    simp only [Option.getD_some]
    rw [List.append_assoc]
    exact (findSuffix_split ref suf hsuf).symm
  · rw [if_neg hc]
    show ref = (splitRef ref).2
    unfold splitRef
    rw [if_neg hc]

/-- Overwriting an existing key in place stores the new value. -/
theorem alookup_map_set {α : Type} (kvs : List (Str × α)) (k : Str) (v : α)
    (hs : (alookup kvs k).isSome = true) :
    alookup (kvs.map (fun p => if p.1 = k then (k, v) else p)) k = some v := by
  induction kvs with
  | nil => simp [alookup] at hs
  | cons p rest ih =>
    obtain ⟨k2, v2⟩ := p
    by_cases hk : k2 = k
    · subst hk
      simp only [List.map_cons]
      simp [alookup]
    · have hs2 : (alookup rest k).isSome = true := by
        simpa [alookup, hk] using hs
      simp only [List.map_cons]
      rw [if_neg hk]
      simp only [alookup, if_neg hk]
      exact ih hs2

/-- Appending a fresh key at the end stores the new value. -/
theorem alookup_append_last {α : Type} (kvs : List (Str × α)) (k : Str) (v : α)
    (hn : alookup kvs k = none) :
    alookup (kvs ++ [(k, v)]) k = some v := by
  induction kvs with
  | nil => simp [alookup]
  | cons p rest ih =>
    obtain ⟨k2, v2⟩ := p
    by_cases hk : k2 = k
    · simp [alookup, hk] at hn
    · have h2 : alookup rest k = none := by simpa [alookup, hk] using hn
      simpa [alookup, hk] using ih h2

/-- Dict assignment makes the assigned value the one found under the key. -/
theorem alookup_dictSet {α : Type} (kvs : List (Str × α)) (k : Str) (v : α) :
    alookup (dictSet kvs k v) k = some v := by
  cases hs : alookup kvs k with
  | some w =>
    have ht : (alookup kvs k).isSome = true := by rw [hs]; rfl
    have hd : dictSet kvs k v = kvs.map (fun p => if p.1 = k then (k, v) else p) := by
      unfold dictSet
      rw [if_pos ht]
    rw [hd]
    exact alookup_map_set kvs k v ht
  | none =>
    have hf : ¬((alookup kvs k).isSome = true) := by rw [hs]; simp
    have hd : dictSet kvs k v = kvs ++ [(k, v)] := by
      unfold dictSet
      rw [if_neg hf]
    rw [hd]
    exact alookup_append_last kvs k v hs

/-- The code's owner derivation agrees with the claim's preference chain. -/
theorem derivedOwner_eq_spec (kvs : List (Str × Json)) :
    derivedOwner kvs = specOwnerOf kvs := by
  have hch : (if pyTruthy ((alookup kvs "owner_login".data).getD Json.null)
        then (alookup kvs "owner_login".data).getD Json.null
        else (alookup kvs "owner".data).getD (Json.str []))
      = (match alookup kvs "owner_login".data with
         | some v => if pyTruthy v then v
                     else (alookup kvs "owner".data).getD (Json.str [])
         | none => (alookup kvs "owner".data).getD (Json.str [])) := by
    cases h : alookup kvs "owner_login".data with
    | none => rfl
    | some v => rfl
  exact congrArg loginExtract hch

/-- C7: each keyed record of the decoded list gets a space_ref field equal
to owner + "/" + name — owner preferentially from owner_login, else owner
(a nested object contributing its login field), else empty — and equal to
name alone when the derived owner is empty. -/
theorem claim_C7 (kvs : List (Str × Json)) (o n : Str)
    (ho : specOwnerOf kvs = Json.str o)
    (hn : (alookup kvs "name".data).getD (Json.str []) = Json.str n) :
    normalizeSpace (Json.obj kvs)
      = Json.obj (dictSet kvs "space_ref".data
          (if o.isEmpty then Json.str n else Json.str (o ++ "/".data ++ n)))
    ∧ alookup (dictSet kvs "space_ref".data (spaceRefValue kvs)) "space_ref".data
      = some (if o.isEmpty then Json.str n else Json.str (o ++ "/".data ++ n)) := by
  have href : spaceRefValue kvs
      = (if o.isEmpty then Json.str n else Json.str (o ++ "/".data ++ n)) := by
    show (if pyTruthy (derivedOwner kvs)
          then Json.str (pyStr (derivedOwner kvs) ++ "/".data
            ++ pyStr ((alookup kvs "name".data).getD (Json.str [])))
          else (alookup kvs "name".data).getD (Json.str [])) = _
    rw [derivedOwner_eq_spec, ho, hn]
    by_cases he : o.isEmpty = true
    · simp [pyTruthy, he]
    · rw [Bool.not_eq_true] at he
      simp [pyTruthy, he, pyStr]
  constructor
  · show Json.obj (dictSet kvs "space_ref".data (spaceRefValue kvs)) = _
    rw [href]
  · rw [href]
    exact alookup_dictSet kvs "space_ref".data _

/-- Witness for C7 at a record with owner_login "a" and name "b". -/
theorem claim_C7_witness :
    normalizeSpace (Json.obj [("owner_login".data, Json.str "a".data),
        ("name".data, Json.str "b".data)])
      = Json.obj (dictSet [("owner_login".data, Json.str "a".data),
          ("name".data, Json.str "b".data)] "space_ref".data
          (if "a".data.isEmpty then Json.str "b".data
           else Json.str ("a".data ++ "/".data ++ "b".data)))
    ∧ alookup (dictSet [("owner_login".data, Json.str "a".data),
          ("name".data, Json.str "b".data)] "space_ref".data
          (spaceRefValue [("owner_login".data, Json.str "a".data),
            ("name".data, Json.str "b".data)])) "space_ref".data
      = some (if "a".data.isEmpty then Json.str "b".data
              else Json.str ("a".data ++ "/".data ++ "b".data)) :=
  claim_C7 [("owner_login".data, Json.str "a".data), ("name".data, Json.str "b".data)]
    "a".data "b".data rfl rfl

/-- A non-name item leaves the eventual display name unchanged. -/
theorem specNameFrom_cons_none (name n0 : Str) {it : McpItem} (rest : List McpItem)
    (h : nameItemOf it = none) :
    specNameFrom name n0 (it :: rest) = specNameFrom name n0 rest := by
  unfold specNameFrom
  have hl : lastNameItem (it :: rest) = lastNameItem rest := by
    show (lastNameItem rest).or (nameItemOf it) = lastNameItem rest
    rw [h]
    cases lastNameItem rest <;> rfl
  rw [hl]

/-- A name item replaces the running display name with its own candidate. -/
theorem specNameFrom_cons_some (name n0 : Str) {it : McpItem} (rest : List McpItem)
    {r : McpResource} (h : nameItemOf it = some r) :
    specNameFrom name n0 (it :: rest)
      = specNameFrom name
          (if (trimChars (r.text.getD [])).isEmpty then name
           else trimChars (r.text.getD [])) rest := by
  unfold specNameFrom
  cases hl : lastNameItem rest with
  | some r2 =>
    have h2 : lastNameItem (it :: rest) = some r2 := by
      show (lastNameItem rest).or (nameItemOf it) = some r2
      rw [hl]
      rfl
    rw [h2]
  | none =>
    have h2 : lastNameItem (it :: rest) = some r := by
      show (lastNameItem rest).or (nameItemOf it) = some r
      rw [hl, h]
      rfl
    rw [h2]

/-- An item contributing no File leaves the files list unchanged. -/
theorem specFiles_cons_none {it : McpItem} (rest : List McpItem)
    (h : specFileOf it = none) : specFiles (it :: rest) = specFiles rest := by
  simp [specFiles, List.filterMap_cons, h]

/-- An item contributing a File prepends it to the tail's files. -/
theorem specFiles_cons_some {it : McpItem} (rest : List McpItem) {e : FileEntry}
    (h : specFileOf it = some e) : specFiles (it :: rest) = e :: specFiles rest := by
  simp [specFiles, List.filterMap_cons, h]

/-- The resource-item loop computes, from any starting state, the last-wins
display name and the appended per-item Files of the spec-side
description. -/
theorem spaceWalk_general (name : Str) : ∀ (items : List McpItem) (n0 : Str)
    (fs0 : List FileEntry),
    items.foldl (spaceWalkStep name) (n0, fs0)
      = (specNameFrom name n0 items, fs0 ++ specFiles items) := by
  intro items
  induction items with
  | nil =>
    intro n0 fs0
    simp [specNameFrom, lastNameItem, specFiles]
  | cons it rest ih =>
    intro n0 fs0
    rw [List.foldl_cons]
    cases hres : it.res with
    | none =>
      have hstep : spaceWalkStep name (n0, fs0) it = (n0, fs0) := by
        simp [spaceWalkStep, hres]
      have hni : nameItemOf it = none := by simp [nameItemOf, hres]
      have hfi : specFileOf it = none := by simp [specFileOf, hres]
      rw [hstep, ih, specNameFrom_cons_none name n0 rest hni,
        specFiles_cons_none rest hfi]
    | some r =>
      by_cases hc : containsSub "/contents/name".data r.uri = true
      · have hstep : spaceWalkStep name (n0, fs0) it
            = ((if (trimChars (r.text.getD [])).isEmpty then name
                else trimChars (r.text.getD [])), fs0) := by
          simp [spaceWalkStep, hres, hc]
        have hni : nameItemOf it = some r := by simp [nameItemOf, hres, hc]
        have hfi : specFileOf it = none := by simp [specFileOf, hres, hc]
        rw [hstep, ih, specNameFrom_cons_some name n0 rest hni,
          specFiles_cons_none rest hfi]
      · by_cases hf : containsSub "/files/".data r.uri = true
        · by_cases ht : (trimChars (r.text.getD [])).isEmpty = true
          · have hstep : spaceWalkStep name (n0, fs0) it = (n0, fs0) := by
              simp [spaceWalkStep, hres, hc, hf, ht]
            have hni : nameItemOf it = none := by simp [nameItemOf, hres, hc]
            have hfi : specFileOf it = none := by simp [specFileOf, hres, ht]
            rw [hstep, ih, specNameFrom_cons_none name n0 rest hni,
              specFiles_cons_none rest hfi]
          · have hstep : spaceWalkStep name (n0, fs0) it
                = (n0, fs0 ++ [⟨afterFirst "/files/".data r.uri, r.text.getD []⟩]) := by
              simp [spaceWalkStep, hres, hc, hf, ht]
            have hni : nameItemOf it = none := by simp [nameItemOf, hres, hc]
            have hfi : specFileOf it
                = some ⟨afterFirst "/files/".data r.uri, r.text.getD []⟩ := by
              simp [specFileOf, hres, hc, hf, ht]
            rw [hstep, ih, specNameFrom_cons_none name n0 rest hni,
              specFiles_cons_some rest hfi, List.append_assoc]
            rfl
        · have hstep : spaceWalkStep name (n0, fs0) it = (n0, fs0) := by
            simp [spaceWalkStep, hres, hc, hf]
          have hni : nameItemOf it = none := by simp [nameItemOf, hres, hc]
          have hfi : specFileOf it = none := by simp [specFileOf, hres, hc, hf]
          rw [hstep, ih, specNameFrom_cons_none name n0 rest hni,
            specFiles_cons_none rest hfi]

/-- The context builder agrees with the claim's joined-headers description. -/
theorem buildContext_eq_spec : ∀ (files : List FileEntry),
    buildContext files = specContext files := by
  intro files
  induction files with
  | nil => rfl
  | cons f rest ih =>
    cases rest with
    | nil => rfl
    | cons g rest2 =>
      have hb : buildContext (f :: g :: rest2)
          = ("### File: ".data ++ f.path ++ "\n\n".data ++ f.content)
            ++ "\n\n---\n\n".data ++ buildContext (g :: rest2) := rfl
      rw [hb, ih]
      rfl

/-- C2 counterexample: an item whose URI contains both "/files/" and
"/contents/name" is consumed by the name branch and contributes no File,
although its URI contains "/files/" and its text has non-empty trim. -/
theorem claim_C2_counterexample :
    (spaceWalk "n".data
        [⟨none, some (some ⟨"space://o/1/files/contents/name".data,
          some "hello".data⟩), none⟩]).2
      ≠ claimFiles
          [⟨none, some (some ⟨"space://o/1/files/contents/name".data,
            some "hello".data⟩), none⟩] := by
  decide

/-- C2 as amended: the walk produces the last-wins display name (trimmed
override text when non-empty, else the input name), a files list with one
entry in item order per resource item whose URI contains "/files/" but not
"/contents/name" and whose text has non-empty trim (path the URI suffix
after the first "/files/", content the unmodified text), and the context
as the header-plus-content blocks of those files joined by the fixed
separator, empty for an empty files list. -/
theorem claim_C2_amended (name : Str) (items : List McpItem) :
    spaceWalk name items = (specName name items, specFiles items)
    ∧ buildContext (spaceWalk name items).2 = specContext (specFiles items) := by
  have h := spaceWalk_general name items name []
  constructor
  · show items.foldl (spaceWalkStep name) (name, []) = _
    rw [h]
    rfl
  · show buildContext (items.foldl (spaceWalkStep name) (name, [])).2 = _
    rw [h]
    exact buildContext_eq_spec (specFiles items)

/-- C3 counterexample: an item of type "resource" without a resource
attribute but with its own text makes the parser return absent, while the
claim's description extracts the item's own text and returns it raw. -/
theorem claim_C3_counterexample :
    parse_mcp_result (fun _ => none)
        (some ⟨some [⟨some "resource".data, none, some "hi".data⟩]⟩) = none
    ∧ claimParse (fun _ => none)
        (some ⟨some [⟨some "resource".data, none, some "hi".data⟩]⟩)
      = some (ParsedVal.raw "hi".data) :=
  ⟨rfl, rfl⟩

/-- C3 as amended: absent for an empty or absent content sequence; only the
first item is inspected; the resource branch is taken when the item's type
is "resource" or it carries a resource attribute, with absent resource
object or absent text giving absent; else the item's own text is used;
valid JSON gives the parsed value, malformed JSON the exact raw string,
never an exception. -/
theorem claim_C3_amended (jparse : Str → Option Json) (result : Option CallResult) :
    parse_mcp_result jparse result = amendedParse jparse result := by
  cases result with
  | none => rfl
  | some res =>
    cases hc : res.content with
    | none => simp [parse_mcp_result, amendedParse, hc]
    | some items =>
      cases items with
      | nil => simp [parse_mcp_result, amendedParse, hc]
      | cons item rest =>
        simp only [parse_mcp_result, amendedParse, hc]
        by_cases hb : ((item.ctype == some "resource".data) || item.resource.isSome) = true
        · rw [if_pos hb, if_pos hb]
          cases hres : item.res with
          | none => rfl
          | some r =>
            obtain ⟨uri, txt⟩ := r
            cases txt <;> rfl
        · rw [if_neg hb, if_neg hb]
          cases item.text <;> rfl

/-- Getting `content` with a string default out of a message object yields
a string exactly under the `goodContent` condition. -/
theorem returnsString_pyGet_content (mo : List (Str × Json)) (d : Str) :
    returnsString (pyGet (Json.obj mo) "content".data (Json.str d))
      = goodContent mo := by
  show returnsString (Except.ok ((alookup mo "content".data).getD (Json.str d)))
      = goodContent mo
  unfold returnsString goodContent
  cases h : alookup mo "content".data with
  | none => rfl
  | some con => cases con <;> rfl

/-- The choices-path tail of the extractor yields a string exactly under
the `goodMsg` condition on the first choice. -/
theorem returnsString_msgPath (fo : List (Str × Json)) :
    returnsString (pyGet ((alookup fo "message".data).getD (Json.obj []))
        "content".data (Json.str [])) = goodMsg fo := by
  unfold goodMsg
  cases hm : alookup fo "message".data with
  | none => rfl
  | some m =>
    cases m with
    | obj mo => exact returnsString_pyGet_content mo []
    | null => rfl
    | bool b => rfl
    | num n => rfl
    | str s => rfl
    | arr xs => rfl

/-- On the fallback path the extractor returns a string without raising
exactly under the `goodElse` shape conditions. -/
theorem elseAgree (resp : List (Str × Json)) :
    returnsString (extractElse resp) = goodElse resp := by
  unfold extractElse goodElse
  cases hm : alookup resp "message".data with
  | none => rfl
  | some m =>
    cases m with
    | null => rfl
    | bool b => rfl
    | num n => rfl
    | str s => rfl
    | arr xs => rfl
    | obj mo => exact returnsString_pyGet_content mo (json_dumps (Json.obj resp))

/-- C4 counterexample: on a response whose message field is a number the
extractor raises an AttributeError, so it does not return a string. -/
theorem claim_C4_counterexample :
    extract_response [("message".data, Json.num 5)]
      = Except.error "AttributeError".data
    ∧ returnsString (extract_response [("message".data, Json.num 5)]) = false :=
  ⟨rfl, rfl⟩

/-- C4 as amended: the Response Extractor returns a string without raising
precisely for the well-shaped response objects described by goodResponse;
outside that shape it raises or returns a non-string value. -/
theorem claim_C4_amended (resp : List (Str × Json)) :
    returnsString (extract_response resp) = goodResponse resp := by
  unfold extract_response goodResponse
  cases hc : alookup resp "choices".data with
  | none => exact elseAgree resp
  | some c =>
    cases c with
    | null => rfl
    | bool b => rfl
    | num n => rfl
    | str s =>
      cases s with
      | nil => exact elseAgree resp
      | cons ch rest => simp [pyLen, pyIndex0, pyGet, returnsString]
    | obj kvs =>
      cases kvs with
      | nil => exact elseAgree resp
      | cons p rest => simp [pyLen, pyIndex0, pyGet, returnsString]
    | arr xs =>
      cases xs with
      | nil => exact elseAgree resp
      | cons first rest =>
        cases first with
        | null => simp [pyLen, pyIndex0, pyGet, returnsString]
        | bool b => simp [pyLen, pyIndex0, pyGet, returnsString]
        | num n => simp [pyLen, pyIndex0, pyGet, returnsString]
        | str s2 => simp [pyLen, pyIndex0, pyGet, returnsString]
        | arr ys => simp [pyLen, pyIndex0, pyGet, returnsString]
        | obj fo =>
          simp only [pyLen, List.length_cons, pyIndex0]
          simp only [Nat.zero_lt_succ, if_true]
          exact returnsString_msgPath fo

/-- Under the `goodContent` condition, getting `content` with a string
default yields the claim's content value as a string. -/
theorem pyGet_content_good (mo : List (Str × Json)) (d : Str)
    (h : goodContent mo = true) :
    pyGet (Json.obj mo) "content".data (Json.str d)
      = Except.ok (Json.str (contentSpec mo d)) := by
  show Except.ok ((alookup mo "content".data).getD (Json.str d))
      = Except.ok (Json.str (contentSpec mo d))
  unfold contentSpec
  unfold goodContent at h
  cases hcon : alookup mo "content".data with
  | none => rfl
  | some con =>
    rw [hcon] at h
    cases con with
    | str s => rfl
    | null => exact Bool.noConfusion h
    | bool b => exact Bool.noConfusion h
    | num n => exact Bool.noConfusion h
    | arr xs => exact Bool.noConfusion h
    | obj o2 => exact Bool.noConfusion h

/-- Under the `goodMsg` condition, the choices-path tail of the extractor
yields the claim's choices[0].message.content value as a string. -/
theorem msgPath_good (fo : List (Str × Json)) (h : goodMsg fo = true) :
    pyGet ((alookup fo "message".data).getD (Json.obj []))
        "content".data (Json.str []) = Except.ok (Json.str (msgSpec fo)) := by
  unfold msgSpec
  unfold goodMsg at h
  cases hm : alookup fo "message".data with
  | none => rfl
  | some m =>
    rw [hm] at h
    cases m with
    | obj mo => exact pyGet_content_good mo [] h
    | null => exact Bool.noConfusion h
    | bool b => exact Bool.noConfusion h
    | num n => exact Bool.noConfusion h
    | str s => exact Bool.noConfusion h
    | arr xs => exact Bool.noConfusion h

/-- Under the `goodElse` condition, the fallback path of the extractor
yields the claim's fallback value as a string. -/
theorem extractElse_good (resp : List (Str × Json)) (h : goodElse resp = true) :
    extractElse resp = Except.ok (Json.str (extractSpecElse resp)) := by
  unfold extractElse extractSpecElse
  unfold goodElse at h
  cases hm : alookup resp "message".data with
  | none => rfl
  | some m =>
    rw [hm] at h
    cases m with
    | obj mo => exact pyGet_content_good mo (json_dumps (Json.obj resp)) h
    | null => exact Bool.noConfusion h
    | bool b => exact Bool.noConfusion h
    | num n => exact Bool.noConfusion h
    | str s => exact Bool.noConfusion h
    | arr xs => exact Bool.noConfusion h

/-- C5 counterexample: on a response whose choices field is a boolean the
extractor raises a TypeError from len(), while the claim prescribes
returning the serialised response. -/
theorem claim_C5_counterexample :
    extract_response [("choices".data, Json.bool true)]
      = Except.error "TypeError".data
    ∧ extract_response [("choices".data, Json.bool true)]
      ≠ Except.ok (Json.str (extractSpec [("choices".data, Json.bool true)])) := by
  refine ⟨rfl, ?_⟩
  intro hcl
  have h2 : Except.error "TypeError".data
      = Except.ok (Json.str (extractSpec [("choices".data, Json.bool true)])) := hcl
  exact Except.noConfusion h2

/-- C5 as amended: on well-shaped response objects (goodResponse) the
extractor returns choices[0].message.content with empty-string defaults
when a non-empty choices sequence is present, else message.content
defaulting to the serialised response, else the serialised response. -/
theorem claim_C5_amended (resp : List (Str × Json)) (h : goodResponse resp = true) :
    extract_response resp = Except.ok (Json.str (extractSpec resp)) := by
  unfold extract_response extractSpec
  unfold goodResponse at h
  cases hc : alookup resp "choices".data with
  | none =>
    rw [hc] at h
    exact extractElse_good resp h
  | some c =>
    rw [hc] at h
    cases c with
    | null => exact Bool.noConfusion h
    | bool b => exact Bool.noConfusion h
    | num n => exact Bool.noConfusion h
    | str s =>
      cases s with
      | nil => exact extractElse_good resp h
      | cons ch cr => exact Bool.noConfusion h
    | obj kvs =>
      cases kvs with
      | nil => exact extractElse_good resp h
      | cons p pr => exact Bool.noConfusion h
    | arr xs =>
      cases xs with
      | nil => exact extractElse_good resp h
      | cons first rest =>
        cases first with
        | null => exact Bool.noConfusion h
        | bool b => exact Bool.noConfusion h
        | num n => exact Bool.noConfusion h
        | str s2 => exact Bool.noConfusion h
        | arr ys => exact Bool.noConfusion h
        | obj fo =>
          simp only [pyLen, List.length_cons, pyIndex0]
          simp only [Nat.zero_lt_succ, if_true]
          exact msgPath_good fo h

/-- Witness for C5 at a one-choice response carrying content "hi". -/
theorem claim_C5_witness :
    extract_response [("choices".data,
        Json.arr [Json.obj [("message".data,
          Json.obj [("content".data, Json.str "hi".data)])]])]
      = Except.ok (Json.str (extractSpec [("choices".data,
          Json.arr [Json.obj [("message".data,
            Json.obj [("content".data, Json.str "hi".data)])]])])) :=
  claim_C5_amended [("choices".data,
      Json.arr [Json.obj [("message".data,
        Json.obj [("content".data, Json.str "hi".data)])]])] rfl
